import Mathlib

/-!
Shallow embedding of the interaction core of an image / point-cloud
visualization app (React + three.js): per-poll hand-gesture classification
(App.tsx, detectLoop), rejection sampling of an image into particles
(imageProcessing, processImageToParticles), the text-glyph life cycle
(TextParticleSystem), memory search scoring and sorting (App.tsx,
processedMemories), the ambient disruption blend (ParticleScene) and the
audio recording start / stop state (App.tsx handleToggleRecording and
AudioStreamer).

Numbers are modelled as rationals.  The JS functions Math.sqrt, Math.sin,
Math.cos, Math.atan2 and the constant Math.PI produce irrational values;
they are treated in two faithful ways.  Where the source only compares a
square root against a constant, the embedding compares squares instead
(for a, b nonnegative, sqrt a < b iff a < b^2; likewise the vignette test
r < d^1.5 with d = sqrt s becomes r^4 < s^3).  Everywhere else the value
itself is stored but never branched on, and the transcendental functions
are passed as abstract parameters (MathOracle), so every theorem holds for
all interpretations of them, the real one included.
-/

namespace ChronoSpec

/-- Three rational components, modelling a JS record with x, y, z fields. -/
structure Vec3 where
  x : ℚ
  y : ℚ
  z : ℚ
  deriving DecidableEq

/-- The five discrete gesture labels of the classifier (types.ts, HandData.gesture). -/
inductive Gesture where
  | OPEN
  | CLOSED
  | SWIPE
  | PINCH
  | IDLE
  deriving DecidableEq

/-- Abstract stand-ins for the JS transcendental functions and Math.PI.  The
embedding passes them as parameters: their outputs flow only into stored
continuous quantities, never into a branch that a verified claim depends on,
so every theorem below is quantified over all interpretations. -/
structure MathOracle where
  sqrt : ℚ → ℚ
  sin : ℚ → ℚ
  cos : ℚ → ℚ
  atan2 : ℚ → ℚ → ℚ
  pi : ℚ

/-- A landmark frame: the detector's 21 labeled points in normalized image
coordinates, modelled as a total function from the landmark index (the code
reads indices 0 to 20 only). -/
abbrev Landmarks : Type := ℕ → Vec3

/-- Extended-finger count (App.tsx detectLoop): for each of the four
fingertip indices 8, 12, 16, 20 the finger counts as extended when the tip
sits at least 0.1 above the wrist and at least 0.05 above its own proximal
joint two indices below (y grows downward in image coordinates). -/
def extendedFingersOf (lm : Landmarks) : ℕ :=
  ([8, 12, 16, 20].countP fun idx =>
    decide (1/10 < (lm 0).y - (lm idx).y ∧ 1/20 < (lm (idx - 2)).y - (lm idx).y))

/-- Palm-normal proxy (App.tsx detectLoop): 2-D cross product of the vectors
from the wrist (landmark 0) to the index knuckle (landmark 5) and to the
pinky knuckle (landmark 17). -/
def palmNormalZOf (lm : Landmarks) : ℚ :=
  ((lm 5).x - (lm 0).x) * ((lm 17).y - (lm 0).y)
    - ((lm 5).y - (lm 0).y) * ((lm 17).x - (lm 0).x)

/-- Squared pinch distance: the source computes the Euclidean distance
between thumb tip (landmark 4) and index tip (landmark 8) with Math.sqrt
and compares it against 0.08; the embedding keeps the square. -/
def pinchDistanceSqOf (lm : Landmarks) : ℚ :=
  ((lm 4).x - (lm 8).x) ^ 2 + ((lm 4).y - (lm 8).y) ^ 2

/-- Geometric index-finger extension test used inside the SWIPE branch
(App.tsx detectLoop): landmark 6 sits more than 0.05 below landmark 8. -/
def indexExtendedOf (lm : Landmarks) : Bool :=
  decide (1/20 < (lm 6).y - (lm 8).y)

/-- The classification chain of App.tsx detectLoop (lines 225-232), written
over the derived quantities.  Square-root comparisons are squared: the
source's pinchDistance < 0.08 is pinchSq < 0.08^2 and velocity > 0.5 is
velocitySq > 0.5^2, exact equivalences for the nonnegative source values. -/
def classifyGesture (pinchSq : ℚ) (extendedFingers : ℕ) (palmNormalZ : ℚ)
    (velocitySq : ℚ) (indexExtended : Bool) : Gesture :=
  if pinchSq < (8/100) ^ 2 then .PINCH
  else if 4 ≤ extendedFingers then .OPEN
  else if extendedFingers ≤ 1 ∧ 1/100 < |palmNormalZ| then .CLOSED
  else if extendedFingers = 1 ∧ (1/2) ^ 2 < velocitySq then
    (if indexExtended then .SWIPE else .IDLE)
  else .IDLE

/-- The published hand state (types.ts HandData).  pinchDistance stores the
square root of the squared distance through the oracle. -/
structure GestureHandData where
  gesture : Gesture
  position : Vec3
  palmCenter : ℚ × ℚ
  pointer : ℚ × ℚ
  rotation : ℚ × ℚ
  detected : Bool
  pinchDistance : ℚ
  deriving DecidableEq

/-- The detection loop's persistent state: the published HandData (null
before the first detection), the cached pointer sample (lastPointerRef) and
the cached poll time (lastTimeRef, initially 0, which is falsy in JS). -/
structure DetectState where
  handData : Option GestureHandData
  lastPointer : Option (ℚ × ℚ)
  lastTime : ℚ
  deriving DecidableEq

/-- Squared pointer velocity of the next detection (App.tsx detectLoop
lines 213-221): nonzero only when both a cached pointer and a nonzero
cached time exist and the elapsed time is positive.  The source computes
sqrt(dx^2+dy^2)/dt and only compares it with 0.5; the embedding keeps
(dx^2+dy^2)/dt^2. -/
def velocitySqOf (st : DetectState) (px py now : ℚ) : ℚ :=
  match st.lastPointer with
  | some lp =>
    if st.lastTime ≠ 0 then
      let dt := (now - st.lastTime) / 1000
      if 0 < dt then (((px - lp.1) ^ 2 + (py - lp.2) ^ 2) / dt ^ 2) else 0
    else 0
  | none => 0

/-- One iteration of the detection loop (App.tsx detectLoop lines 186-249).
A frame of none covers both a null detector result and an empty landmark
list.  On detection the full HandData is recomputed and the pointer cache
is overwritten; on a gap the previous HandData, if any, keeps every field
except detected (forced false) and gesture (forced IDLE), the pointer cache
is cleared, and the time cache is left as it was (the source nulls only
lastPointerRef). -/
def pollStep (M : MathOracle) (st : DetectState) (frame : Option Landmarks)
    (now : ℚ) : DetectState :=
  match frame with
  | some lm =>
    let ext := extendedFingersOf lm
    let palmNormalZ := palmNormalZOf lm
    let pinchSq := pinchDistanceSqOf lm
    let px := -((lm 8).x - 1/2) * 2
    let py := -((lm 8).y - 1/2) * 2
    let velSq := velocitySqOf st px py now
    let gesture := classifyGesture pinchSq ext palmNormalZ velSq (indexExtendedOf lm)
    { handData := some
        { gesture := gesture
          position := ⟨-((lm 9).x - 1/2) * 2, -((lm 9).y - 1/2) * 2, 0⟩
          palmCenter := (-((lm 9).x - 1/2) * 2, -((lm 9).y - 1/2) * 2)
          pointer := (px, py)
          rotation := (M.atan2 ((lm 9).y - (lm 0).y) ((lm 9).x - (lm 0).x),
                       M.atan2 ((lm 5).y - (lm 17).y) ((lm 5).x - (lm 17).x))
          detected := true
          pinchDistance := M.sqrt pinchSq }
      lastPointer := some (px, py)
      lastTime := now }
  | none =>
    { handData := st.handData.map fun h => { h with detected := false, gesture := .IDLE }
      lastPointer := none
      lastTime := st.lastTime }

/-- One sampled point (types.ts ParticleData). -/
structure Particle where
  x : ℚ
  y : ℚ
  z : ℚ
  originalX : ℚ
  originalY : ℚ
  originalZ : ℚ
  r : ℚ
  g : ℚ
  b : ℚ
  random : ℚ
  deriving DecidableEq

/-- An accepted pixel turned into a particle (imageProcessing lines 63-91):
colors are bytes over 255, luminance uses the perceptual weights
0.21 / 0.72 / 0.07, depth is an affine map of luminance, and the planar
position recenters the pixel coordinates. -/
def mkSampledParticle (w h : ℕ) (aspect : ℚ) (data : ℕ → ℕ) (rx ry : ℕ)
    (rand : ℚ) : Particle :=
  let i := (ry * w + rx) * 4
  let r := (data i : ℚ) / 255
  let g := (data (i + 1) : ℚ) / 255
  let b := (data (i + 2) : ℚ) / 255
  let luminance := 21/100 * r + 72/100 * g + 7/100 * b
  let zDepth := (luminance - 1/2) * (5/2)
  let finalX := ((rx : ℚ) / w - 1/2) * 10 * aspect
  let finalY := -((ry : ℚ) / h - 1/2) * 10
  { x := finalX, y := finalY, z := zDepth
    originalX := finalX, originalY := finalY, originalZ := zDepth
    r := r, g := g, b := b, random := rand }

/-- One attempt of the sampling loop body (imageProcessing lines 41-92):
draw a pixel coordinate, run the center-biased rejection (the source's
vignette test rand < (sqrt (nx^2+ny^2))^1.5 is the exact quartic
comparison rand^4 < (nx^2+ny^2)^3 for the nonnegative draws Math.random
produces, and the 15% base chance survives it), then the alpha > 20
acceptance test.  Returns the accepted particle, if any, and the index of
the next unused random draw. -/
def sampleAttempt (w h : ℕ) (aspect : ℚ) (data : ℕ → ℕ) (rands : ℕ → ℚ)
    (k : ℕ) : Option Particle × ℕ :=
  let rx := (Rat.floor (rands k * w)).toNat
  let ry := (Rat.floor (rands (k + 1) * h)).toNat
  let nx := (rx : ℚ) / w * 2 - 1
  let ny := (ry : ℚ) / h * 2 - 1
  let next : Option ℕ :=
    if (rands (k + 2)) ^ 4 < (nx ^ 2 + ny ^ 2) ^ 3 then
      if 15/100 < rands (k + 3) then none else some (k + 4)
    else some (k + 3)
  match next with
  | none => (none, k + 4)
  | some k2 =>
    if 20 < data ((ry * w + rx) * 4 + 3) then
      (some (mkSampledParticle w h aspect data rx ry (rands k2)), k2 + 1)
    else (none, k2)

/-- The sampling loop of processImageToParticles (imageProcessing lines
40-93), with the remaining attempt budget as fuel, the next index into the
stream of Math.random draws, and the particles collected so far.  Returns
the collected particles and the number of attempts performed. -/
def sampleLoop (w h : ℕ) (aspect : ℚ) (data : ℕ → ℕ) (targetCount : ℕ)
    (rands : ℕ → ℚ) : ℕ → ℕ → List Particle → List Particle × ℕ
  | 0, _, acc => (acc, 0)
  | fuel + 1, k, acc =>
    if targetCount ≤ acc.length then (acc, 0)
    else
      match sampleAttempt w h aspect data rands k with
      | (none, k2) =>
        let rest := sampleLoop w h aspect data targetCount rands fuel k2 acc
        (rest.1, rest.2 + 1)
      | (some p, k2) =>
        let rest := sampleLoop w h aspect data targetCount rands fuel k2 (acc ++ [p])
        (rest.1, rest.2 + 1)

/-- The fallback particle pushed when nothing was accepted (imageProcessing
lines 95-97): the origin, white, zero seed. -/
def fallbackParticle : Particle :=
  { x := 0, y := 0, z := 0, originalX := 0, originalY := 0, originalZ := 0
    r := 1, g := 1, b := 1, random := 0 }

/-- The sampler proper: run the loop with the attempt budget 200 times the
target count, then substitute the single fallback particle when nothing was
accepted. -/
def processImageToParticles (w h : ℕ) (aspect : ℚ) (data : ℕ → ℕ)
    (targetCount : ℕ) (rands : ℕ → ℚ) : List Particle :=
  let ps := (sampleLoop w h aspect data targetCount rands (targetCount * 200) 0 []).1
  if ps.isEmpty then [fallbackParticle] else ps

/-- Life-cycle phase of a text glyph.  The source's type union also lists a
hold phase, but no code path ever assigns it: TextParticleSystem creates
particles in spawn and moves them only to fly and then dock. -/
inductive Phase where
  | spawn
  | fly
  | dock
  deriving DecidableEq

/-- One animated glyph (types.ts TextParticle).  The random-string id and
the constant color are omitted: the id is only a render key and the color
is never read by the physics. -/
structure TextParticle where
  char : Char
  position : Vec3
  velocity : Vec3
  rotation : Vec3
  holdPosition : Vec3
  dockPosition : Vec3
  controlPoint : Vec3
  phase : Phase
  spawnTime : ℚ
  morphTime : ℚ
  flyStartTime : ℚ
  delay : ℚ
  deriving DecidableEq

/-- Inputs of one physics tick of TextParticleSystem's useFrame: wall-clock
now (Date.now), the render clock time, the frame delta, the current hand
state, the text size, the reading-mode flag, and whether the glyph's text
mesh is mounted (the loop skips a particle whose mesh ref is missing). -/
structure TickCtx where
  now : ℚ
  time : ℚ
  delta : ℚ
  hand : Option GestureHandData
  textSize : ℚ
  readingMode : Bool
  hasMesh : Bool

/-- Componentwise exponential easing p + (target - p) * f, the pattern the
tick uses in the spawn and dock phases. -/
def lerpV (p target : Vec3) (f : ℚ) : Vec3 :=
  ⟨p.x + (target.x - p.x) * f, p.y + (target.y - p.y) * f, p.z + (target.z - p.z) * f⟩

/-- Quadratic Bezier position from the hold position through the control
point to the dock position (fly phase of the tick). -/
def bezierPos (p : TextParticle) (t : ℚ) : Vec3 :=
  let invT := 1 - t
  ⟨invT ^ 2 * p.holdPosition.x + 2 * invT * t * p.controlPoint.x + t ^ 2 * p.dockPosition.x,
   invT ^ 2 * p.holdPosition.y + 2 * invT * t * p.controlPoint.y + t ^ 2 * p.dockPosition.y,
   invT ^ 2 * p.holdPosition.z + 2 * invT * t * p.controlPoint.z + t ^ 2 * p.dockPosition.z⟩

/-- Dock-phase target (TextParticleSystem useFrame, dock branch): the dock
position revolved by time * 0.1, a sinusoidal z bob, then the gesture
perturbation - OPEN pushes radially out and back, SWIPE repels from the
pointer inside radius 3.5, CLOSED halves the dock position.  The source's
dist || 1 guard of the OPEN branch is the explicit zero test; in the SWIPE
branch the source divides by dist unguarded (a JS non-finite value at
exactly zero distance), and the rational division there yields 0. -/
def dockTarget (M : MathOracle) (c : TickCtx) (p : TextParticle) : Vec3 :=
  let angle := c.time * (1/10)
  let cosA := M.cos angle
  let sinA := M.sin angle
  let tx := p.dockPosition.x * cosA - p.dockPosition.y * sinA
  let ty := p.dockPosition.x * sinA + p.dockPosition.y * cosA
  let tz := p.dockPosition.z + M.sin (c.time + p.position.x) * (2/10)
  match c.hand with
  | some h =>
    if h.detected = true then
      if h.gesture = .OPEN then
        let dist := M.sqrt (tx ^ 2 + ty ^ 2)
        let d := if dist = 0 then 1 else dist
        ⟨tx + tx / d * 8, ty + ty / d * 8, tz + 5⟩
      else if h.gesture = .SWIPE then
        let ptrX := h.pointer.1 * 12
        let ptrY := h.pointer.2 * 8
        let dx := p.position.x - ptrX
        let dy := p.position.y - ptrY
        let dist := M.sqrt (dx ^ 2 + dy ^ 2)
        if dist < 35/10 then
          let force := (1 - dist / (35/10)) * 6
          ⟨tx + dx / dist * force, ty + dy / dist * force, tz⟩
        else ⟨tx, ty, tz⟩
      else if h.gesture = .CLOSED then
        ⟨p.dockPosition.x * (1/2), p.dockPosition.y * (1/2), tz⟩
      else ⟨tx, ty, tz⟩
    else ⟨tx, ty, tz⟩
  | none => ⟨tx, ty, tz⟩

/-- One physics tick for one glyph (TextParticleSystem useFrame, lines
624-727).  Reading mode pauses the whole loop; a missing mesh skips the
particle.  spawn eases toward the hold position and, once now reaches
morphTime, enters fly with the staggered flyStartTime; fly follows the
Bezier under time-normalized progress and enters dock when progress
saturates or the 4000 ms hard timeout fires; dock eases toward the
(possibly gesture-perturbed) revolving target, faster while the gesture is
CLOSED. -/
def particleStep (M : MathOracle) (c : TickCtx) (p : TextParticle) : TextParticle :=
  if c.readingMode then p
  else if c.hasMesh = false then p
  else
    match p.phase with
    | .spawn =>
      let safeDelta := min c.delta (1/10)
      let lerpFactor := 3 * safeDelta
      let pos := lerpV p.position p.holdPosition lerpFactor
      if p.morphTime ≤ c.now then
        { p with position := pos, phase := .fly, flyStartTime := c.now + p.delay }
      else
        { p with position := pos }
    | .fly =>
      let elapsed := c.now - p.flyStartTime
      let progress := max 0 (min 1 (elapsed / 2500))
      if 1 ≤ progress ∨ 4000 < elapsed then { p with phase := .dock }
      else { p with position := bezierPos p progress }
    | .dock =>
      let target := dockTarget M c p
      let closed : Bool := match c.hand with
        | some h => h.gesture = .CLOSED
        | none => false
      let lerpFactor : ℚ := if closed then 2/10 else 5/100
      { p with position := lerpV p.position target lerpFactor }

/-- A sequence of physics ticks applied in order. -/
def stepTicks (M : MathOracle) (cs : List TickCtx) (p : TextParticle) : TextParticle :=
  cs.foldl (fun q c => particleStep M c q) p

/-- Numeric rank of a phase along the spawn - fly - dock progression. -/
def phaseRank : Phase → ℕ
  | .spawn => 0
  | .fly => 1
  | .dock => 2

/-- One freshly spawned glyph (TextParticleSystem spawn effect, lines
532-587): hold slot at the bottom center, dock slot on the orbit ring
determined by the global character counter (50 characters per ring, each
ring rotated a further 30 degrees), Bezier control point above and outside
the dock slot, hold duration 3500 ms, stagger 80 ms per character. -/
def mkGlyph (M : MathOracle) (isRestoring : Bool) (totalBefore n : ℕ) (now : ℚ)
    (i : ℕ) (c : Char) : TextParticle :=
  let charWidth : ℚ := 4/10
  let totalWidth := (n : ℚ) * charWidth
  let startX := -(totalWidth / 2)
  let holdX := startX + (i : ℚ) * charWidth
  let holdY : ℚ := -3
  let holdZ : ℚ := 0
  let globalIndex := if isRestoring then i else totalBefore + i
  let ringIndex := globalIndex / 50
  let localIndex := globalIndex % 50
  let radius : ℚ := 43/10
  let angleStep := M.pi * 2 / 50
  let theta := (localIndex : ℚ) * angleStep
  let baseX := M.cos theta * radius
  let baseY := M.sin theta * radius
  let baseZ : ℚ := 0
  let ringRotationY := (ringIndex : ℚ) * (M.pi / 6)
  let x1 := baseX * M.cos ringRotationY - baseZ * M.sin ringRotationY
  let z1 := baseX * M.sin ringRotationY + baseZ * M.cos ringRotationY
  let dockX := x1
  let dockY := baseY
  let dockZ := z1 + 5/2
  { char := c
    position := ⟨holdX, holdY - 2, holdZ⟩
    velocity := ⟨0, 0, 0⟩
    rotation := ⟨0, 0, 0⟩
    holdPosition := ⟨holdX, holdY, holdZ⟩
    dockPosition := ⟨dockX, dockY, dockZ⟩
    controlPoint := ⟨dockX * (3/2), dockY + 5, 5⟩
    phase := .spawn
    spawnTime := now
    morphTime := now + 3500
    flyStartTime := 0
    delay := (i : ℚ) * 80 }

/-- The glyphs of one spawn batch, indexed from 0 in creation order. -/
def mkGlyphBatch (M : MathOracle) (isRestoring : Bool) (totalBefore n : ℕ)
    (now : ℚ) : ℕ → List Char → List TextParticle
  | _, [] => []
  | i, c :: rest =>
    mkGlyph M isRestoring totalBefore n now i c
      :: mkGlyphBatch M isRestoring totalBefore n now (i + 1) rest

/-- Persistent state of the spawn effect (TextParticleSystem refs): the last
processed transcript, the last seen scene version, the global character
counter, the restore latch, and the live glyph list. -/
structure SpawnState where
  lastTranscript : List Char
  lastSceneVersion : ℕ
  totalCharCount : ℕ
  initialSpawn : Bool
  particles : List TextParticle

/-- One run of the spawn effect (TextParticleSystem lines 467-620) for an
incoming transcript and scene version: hard reset on a scene reset with an
empty transcript; restore latch on a scene reset with text; the new part is
the appended suffix when the transcript extends the previous one outside a
reset, and the whole text otherwise; spawned glyphs are appended and the
oldest beyond the 500 cap evicted.  Returns the new state and the batch of
newly spawned glyphs. -/
def spawnStep (M : MathOracle) (st : SpawnState) (transcript : List Char)
    (sceneVersion : ℕ) (now : ℚ) : SpawnState × List TextParticle :=
  let isReset : Bool := sceneVersion != st.lastSceneVersion
  let isRestoring : Bool := isReset && !transcript.isEmpty
  let st1 :=
    if isReset && !isRestoring then
      { lastTranscript := [], lastSceneVersion := sceneVersion,
        totalCharCount := 0, initialSpawn := false, particles := [] }
    else st
  if transcript.isEmpty then (st1, [])
  else
    let st2 :=
      if isRestoring && !st1.initialSpawn then
        { st1 with lastTranscript := [], initialSpawn := true }
      else st1
    let previousText := st2.lastTranscript
    let newPart : List Char :=
      if isRestoring then transcript
      else if previousText.isPrefixOf transcript && !isReset then
        transcript.drop previousText.length
      else transcript
    let (st3, spawned) :=
      if newPart.isEmpty then (st2, ([] : List TextParticle))
      else
        let batch := mkGlyphBatch M isRestoring st2.totalCharCount newPart.length now 0 newPart
        let total := if isRestoring then newPart.length else st2.totalCharCount + newPart.length
        let combined := st2.particles ++ batch
        let kept :=
          if 500 < combined.length then combined.drop (combined.length - 500)
          else combined
        ({ st2 with totalCharCount := total, particles := kept }, batch)
    ({ st3 with lastTranscript := transcript,
                lastSceneVersion := if isReset then sceneVersion else st3.lastSceneVersion },
     spawned)

/-- A saved memory as the search pipeline reads it (types.ts MemoryPackage):
only the fields the scoring and sorting touch are modelled; the id,
thumbnail, image snapshot, palette and voice list never flow into them. -/
structure MemoryPackage where
  timestamp : ℚ
  transcriptSnapshot : List Char
  sentiment : List Char
  matchScore : ℚ
  deriving DecidableEq

/-- Character-wise lower casing, modelling JS toLowerCase on the text the
app handles. -/
def toLowerChars (s : List Char) : List Char :=
  s.map Char.toLower

/-- The text a memory is matched against (App.tsx line 127): the stored
transcript, a single space, and the sentiment label, lower cased. -/
def searchContent (m : MemoryPackage) : List Char :=
  toLowerChars (m.transcriptSnapshot ++ ' ' :: m.sentiment)

/-- Number of keywords occurring as substrings of the memory's search
content (App.tsx lines 126-131).  Keywords arrive already lower cased from
the query normalization. -/
def hitsOf (keywords : List (List Char)) (m : MemoryPackage) : ℕ :=
  keywords.countP fun w => decide (w <:+: searchContent m)

/-- The match score (App.tsx lines 133-137): zero without a hit, otherwise
hits over max(1, half the keyword count), capped at 1. -/
def scoreOf (keywords : List (List Char)) (m : MemoryPackage) : ℚ :=
  let hits := hitsOf keywords m
  if 0 < hits then
    min ((hits : ℚ) / max 1 ((keywords.length : ℚ) * (1/2))) 1
  else 0

/-- Hit count as the claim words it: keywords occurring case-insensitively
in the transcript concatenated directly with the sentiment label, with no
separator.  This follows the claim text, not the source, and is compared
against the source's hitsOf. -/
def hitsConcatClaim (keywords : List (List Char)) (m : MemoryPackage) : ℕ :=
  keywords.countP fun w =>
    decide (toLowerChars w <:+: toLowerChars (m.transcriptSnapshot ++ m.sentiment))

/-- Memories with the match score reset to 0 (App.tsx lines 94 and 119). -/
def resetScores (l : List MemoryPackage) : List MemoryPackage :=
  l.map fun m => { m with matchScore := 0 }

/-- The recency comparator (App.tsx sort by b.timestamp - a.timestamp): a
sorts no later than b when its timestamp is at least b's. -/
def byRecency (a b : MemoryPackage) : Bool :=
  decide (b.timestamp ≤ a.timestamp)

/-- The search comparator (App.tsx lines 142-147): score order whenever
either score is positive, recency order otherwise. -/
def searchCmp (a b : MemoryPackage) : Bool :=
  if 0 < b.matchScore ∨ 0 < a.matchScore then decide (b.matchScore ≤ a.matchScore)
  else decide (b.timestamp ≤ a.timestamp)

/-- The processedMemories pipeline (App.tsx lines 90-148) downstream of
keyword extraction: in LIVE mode or with an empty query, and likewise with
an empty keyword set (an all-stop-word query), scores reset and the list
sorts by recency; otherwise every memory is scored and the list sorts with
the search comparator.  keywords is the extraction's output for the query.
JS Array.prototype.sort is stable with a consistent comparator, modelled by
the stable mergeSort. -/
def processedMemories (viewLive : Bool) (searchQuery : List Char)
    (keywords : List (List Char)) (saved : List MemoryPackage) : List MemoryPackage :=
  if viewLive = true ∨ searchQuery.isEmpty then
    (resetScores saved).mergeSort byRecency
  else if keywords.isEmpty then
    (resetScores saved).mergeSort byRecency
  else
    (saved.map fun m => { m with matchScore := scoreOf keywords m }).mergeSort searchCmp

/-- Descending match-score order between adjacent sorted memories. -/
def scoreGE (a b : MemoryPackage) : Prop :=
  b.matchScore ≤ a.matchScore

/-- Descending recency order between adjacent sorted memories. -/
def recencyGE (a b : MemoryPackage) : Prop :=
  b.timestamp ≤ a.timestamp

/-- THREE.MathUtils.lerp. -/
def lerpQ (x y t : ℚ) : ℚ :=
  x + (y - x) * t

/-- Per-tick interpolation rate of the disruption blend (ParticleScene
useFrame, lines 391-397): 0.03 while the target exceeds the current value,
0.15 otherwise. -/
def lerpSpeedFor (current target : ℚ) : ℚ :=
  if current < target then 3/100 else 15/100

/-- One tick of the disruption blend weight (ParticleScene useFrame, lines
399-403). -/
def disruptionNext (current target : ℚ) : ℚ :=
  lerpQ current target (lerpSpeedFor current target)

/-- One audio track of a capture stream: stopped is set by track.stop(). -/
structure MediaTrack where
  stopped : Bool
  deriving DecidableEq

/-- A MediaStream as far as capture release is concerned: its tracks. -/
structure MediaStreamR where
  tracks : List MediaTrack
  deriving DecidableEq

/-- The MediaRecorder of the sentiment loop: the stream it captures from
and whether it is currently recording.  MediaRecorder.stop() ends the
recording but does not stop the stream's tracks. -/
structure MediaRecorderR where
  stream : MediaStreamR
  recording : Bool
  deriving DecidableEq

/-- The recording-related state of App.tsx: the isRecording flag, the
recorder ref, the 4-second sentiment interval handle, and every capture
stream acquired from getUserMedia during the session (the browser keeps the
microphone open until each acquired track is stopped). -/
structure AppAudioState where
  isRecording : Bool
  mediaRecorder : Option MediaRecorderR
  sentimentInterval : Option ℕ
  acquiredStreams : List MediaStreamR
  deriving DecidableEq

/-- The empty initial audio state. -/
def initialAppAudio : AppAudioState :=
  { isRecording := false, mediaRecorder := none, sentimentInterval := none,
    acquiredStreams := [] }

/-- The start branch of handleToggleRecording (App.tsx lines 324-357):
acquire an audio stream, wrap it in a MediaRecorder, start it, and start
the 4-second chunking interval.  granted is the stream getUserMedia
resolves with. -/
def startRecordingApp (st : AppAudioState) (granted : MediaStreamR) : AppAudioState :=
  { isRecording := true
    mediaRecorder := some { stream := granted, recording := true }
    sentimentInterval := some 0
    acquiredStreams := st.acquiredStreams ++ [granted] }

/-- The stop branch of handleToggleRecording (App.tsx lines 311-323): stop
the speech recognition, clear isRecording, stop the MediaRecorder and drop
its ref, and clear the interval.  No call stops any track of the acquired
stream, so acquiredStreams is unchanged - exactly what the source does. -/
def stopRecordingApp (st : AppAudioState) : AppAudioState :=
  { isRecording := false
    mediaRecorder := none
    sentimentInterval := none
    acquiredStreams := st.acquiredStreams }

/-- Whether some acquired capture stream still has a live (unstopped)
track. -/
def hasActiveCaptureStream (st : AppAudioState) : Bool :=
  st.acquiredStreams.any fun s => s.tracks.any fun t => !t.stopped

/-- Stopping every track of a stream. -/
def stopTracks (s : MediaStreamR) : MediaStreamR :=
  ⟨s.tracks.map fun t => { t with stopped := true }⟩

/-- The AudioStreamer's release-relevant state (audioStreamer.ts): the
input stream, the processor connection and the audio context. -/
structure StreamerState where
  inputStream : Option MediaStreamR
  processorConnected : Bool
  audioContextOpen : Bool
  deriving DecidableEq

/-- AudioStreamer.stopRecording (audioStreamer.ts lines 96-109): stop every
track of the input stream and null the ref, disconnect the processor,
close the context.  Returns the new state and the streams whose tracks
were stopped by this call. -/
def streamerStopRecording (st : StreamerState) : StreamerState × List MediaStreamR :=
  match st.inputStream with
  | some s =>
    ({ inputStream := none, processorConnected := false, audioContextOpen := false },
     [stopTracks s])
  | none =>
    ({ inputStream := none, processorConnected := false, audioContextOpen := false }, [])

/-- Concrete oracle interpreting every transcendental function as zero,
used only to instantiate universally quantified theorems at a point. -/
def zeroOracle : MathOracle :=
  { sqrt := fun _ => 0, sin := fun _ => 0, cos := fun _ => 0,
    atan2 := fun _ _ => 0, pi := 0 }

/-- Concrete random stream that always draws zero. -/
def zeroRands : ℕ → ℚ :=
  fun _ => 0

/-- Concrete pixel buffer of all-zero bytes (every pixel transparent). -/
def zeroBytes : ℕ → ℕ :=
  fun _ => 0

/-- Concrete pixel buffer of all-255 bytes (opaque white pixels). -/
def fullBytes : ℕ → ℕ :=
  fun _ => 255

/-- Concrete spawn state after the transcript HELLO was processed at scene
version 7. -/
def spawnStateHello : SpawnState :=
  { lastTranscript := ("HELLO".data), lastSceneVersion := 7,
    totalCharCount := 5, initialSpawn := false, particles := [] }

/-- Concrete saved memory with transcript summer and sentiment label
positive. -/
def memSummer : MemoryPackage :=
  { timestamp := 0, transcriptSnapshot := ("summer".data),
    sentiment := ("positive".data), matchScore := 0 }

/-- Concrete capture stream with one live audio track, as getUserMedia
grants for a working microphone. -/
def micStreamOneTrack : MediaStreamR :=
  { tracks := [{ stopped := false }] }

/-- Concrete memory list for sorting instances. -/
def memListPair : List MemoryPackage :=
  [{ timestamp := 1, transcriptSnapshot := ("a".data),
     sentiment := ("positive".data), matchScore := 0 },
   { timestamp := 2, transcriptSnapshot := ("b".data),
     sentiment := ("negative".data), matchScore := 0 }]

/-- C1: for every detected landmark frame the gesture label is decided in
strict priority order over the derived quantities: squared pinch distance
under 0.08^2 gives PINCH; otherwise at least 4 extended fingers gives OPEN;
otherwise at most 1 extended finger with the absolute palm-normal proxy
over 0.01 gives CLOSED; otherwise exactly 1 extended finger with squared
velocity over 0.5^2 and a geometrically extended index finger gives SWIPE;
otherwise IDLE.  (The squared comparisons are the source's square-root
comparisons, exactly.) -/
theorem C1_gesture_priority (pinchSq : ℚ) (ext : ℕ) (palm velSq : ℚ) (idxExt : Bool) :
    (pinchSq < (8/100) ^ 2 → classifyGesture pinchSq ext palm velSq idxExt = .PINCH)
  ∧ (¬ pinchSq < (8/100) ^ 2 → 4 ≤ ext →
      classifyGesture pinchSq ext palm velSq idxExt = .OPEN)
  ∧ (¬ pinchSq < (8/100) ^ 2 → ¬ 4 ≤ ext → ext ≤ 1 → 1/100 < |palm| →
      classifyGesture pinchSq ext palm velSq idxExt = .CLOSED)
  ∧ (¬ pinchSq < (8/100) ^ 2 → ¬ 4 ≤ ext → ¬ (ext ≤ 1 ∧ 1/100 < |palm|) →
      ext = 1 → (1/2) ^ 2 < velSq → idxExt = true →
      classifyGesture pinchSq ext palm velSq idxExt = .SWIPE)
  ∧ (¬ pinchSq < (8/100) ^ 2 → ¬ 4 ≤ ext → ¬ (ext ≤ 1 ∧ 1/100 < |palm|) →
      ¬ (ext = 1 ∧ (1/2) ^ 2 < velSq ∧ idxExt = true) →
      classifyGesture pinchSq ext palm velSq idxExt = .IDLE) := by
  unfold classifyGesture
  refine ⟨fun h1 => ?_, fun h1 h2 => ?_, fun h1 h2 h3 h4 => ?_,
    fun h1 h2 h3 h4 h5 h6 => ?_, fun h1 h2 h3 h4 => ?_⟩
  · rw [if_pos h1]
  · rw [if_neg h1, if_pos h2]
  · rw [if_neg h1, if_neg h2, if_pos ⟨h3, h4⟩]
  · rw [if_neg h1, if_neg h2, if_neg h3, if_pos ⟨h4, h5⟩, if_pos h6]
  · by_cases hc : ext = 1 ∧ (1/2) ^ 2 < velSq
    · have hidx : idxExt = false := by
        cases hix : idxExt with
        | true => exact absurd ⟨hc.1, hc.2, hix⟩ h4
        | false => rfl
      subst hidx
      rw [if_neg h1, if_neg h2, if_neg h3, if_pos hc, if_neg (by simp)]
    · rw [if_neg h1, if_neg h2, if_neg h3, if_neg hc]

/-- Helper: one physics tick either keeps the phase or advances it one
step along spawn, fly, dock. -/
theorem particleStep_phase_cases (M : MathOracle) (c : TickCtx) (p : TextParticle) :
    (particleStep M c p).phase = p.phase
  ∨ (p.phase = Phase.spawn ∧ (particleStep M c p).phase = Phase.fly)
  ∨ (p.phase = Phase.fly ∧ (particleStep M c p).phase = Phase.dock) := by
  unfold particleStep
  by_cases hr : c.readingMode
  · simp [hr]
  by_cases hm : c.hasMesh = false
  · simp [hr, hm]
  rw [if_neg hr, if_neg hm]
  cases hp : p.phase with
  | spawn =>
    dsimp only
    split
    · exact Or.inr (Or.inl ⟨rfl, rfl⟩)
    · exact Or.inl rfl
  | fly =>
    dsimp only
    split
    · exact Or.inr (Or.inr ⟨rfl, rfl⟩)
    · exact Or.inl rfl
  | dock => exact Or.inl rfl

/-- Helper: one physics tick never lowers the phase rank. -/
theorem phaseRank_le_particleStep (M : MathOracle) (c : TickCtx) (p : TextParticle) :
    phaseRank p.phase ≤ phaseRank (particleStep M c p).phase := by
  rcases particleStep_phase_cases M c p with h | ⟨hp, h⟩ | ⟨hp, h⟩ <;> rw [h]
  · rw [hp]; decide
  · rw [hp]; decide

/-- Helper: a sequence of ticks never lowers the phase rank. -/
theorem phaseRank_le_stepTicks (M : MathOracle) (cs : List TickCtx) (p : TextParticle) :
    phaseRank p.phase ≤ phaseRank (stepTicks M cs p).phase := by
  induction cs generalizing p with
  | nil => exact Nat.le_refl _
  | cons c rest ih =>
    exact le_trans (phaseRank_le_particleStep M c p) (ih (particleStep M c p))

/-- C3: glyph phases only ever advance along spawn, fly, dock over any
sequence of physics ticks: the rank never decreases, a docked particle
stays docked, and a flying particle never returns to spawn. -/
theorem C3_phase_monotonic (M : MathOracle) (cs : List TickCtx) (p : TextParticle) :
    phaseRank p.phase ≤ phaseRank (stepTicks M cs p).phase
  ∧ (p.phase = Phase.dock → (stepTicks M cs p).phase = Phase.dock)
  ∧ (p.phase = Phase.fly → (stepTicks M cs p).phase ≠ Phase.spawn) := by
  refine ⟨phaseRank_le_stepTicks M cs p, ?_, ?_⟩
  · intro hd
    have h2 := phaseRank_le_stepTicks M cs p
    rw [hd] at h2
    cases hq : (stepTicks M cs p).phase <;> rw [hq] at h2 <;>
      simp [phaseRank] at h2 ⊢
  · intro hf hq
    have h2 := phaseRank_le_stepTicks M cs p
    rw [hf, hq] at h2
    simp [phaseRank] at h2

/-- C7 counterexample: rising toward a higher disruption target uses rate
0.03, falling uses 0.15, so the claimed strict inequality (engage faster
than relax) fails at current 0, target 1 against current 1, target 0. -/
theorem C7_rate_counterexample :
    ¬ (lerpSpeedFor 1 0 < lerpSpeedFor 0 1) := by
  norm_num [lerpSpeedFor]

/-- C7 (amended): the disruption blend is asymmetric the other way round:
whenever the target is above the current value the per-tick rate is 0.03,
whenever it is below the rate is 0.15, so scattering engages more slowly
than it relaxes. -/
theorem C7_engage_slower_than_relax (c t cf tf : ℚ) (hrise : c < t) (hfall : tf < cf) :
    lerpSpeedFor c t < lerpSpeedFor cf tf
  ∧ lerpSpeedFor c t = 3/100 ∧ lerpSpeedFor cf tf = 15/100
  ∧ disruptionNext c t = lerpQ c t (3/100)
  ∧ disruptionNext cf tf = lerpQ cf tf (15/100) := by
  have h1 : lerpSpeedFor c t = 3/100 := if_pos hrise
  have h2 : lerpSpeedFor cf tf = 15/100 := if_neg (not_lt.mpr hfall.le)
  refine ⟨?_, h1, h2, ?_, ?_⟩
  · rw [h1, h2]; norm_num
  · rw [disruptionNext, h1]
  · rw [disruptionNext, h2]

/-- C7 witness: at current 0, target 1 against current 1, target 0 the
engage rate is strictly below the relax rate. -/
theorem C7_engage_slower_than_relax_witness :
    lerpSpeedFor 0 1 < lerpSpeedFor 1 0 :=
  (C7_engage_slower_than_relax 0 1 1 0 (by norm_num) (by norm_num)).1

/-- C8: evaluating the stop branch of handleToggleRecording twice after one
start leaves the recorder, interval and flag cleared and still leaves the
acquired microphone stream with a live track: the source never calls
track.stop() on the getUserMedia stream, contradicting the claim that
stopping releases the capture resource. -/
theorem C8_stop_leaves_mic_track_live :
    hasActiveCaptureStream
      (stopRecordingApp (stopRecordingApp (startRecordingApp initialAppAudio micStreamOneTrack))) = true
  ∧ (stopRecordingApp (stopRecordingApp (startRecordingApp initialAppAudio micStreamOneTrack))).isRecording = false
  ∧ (stopRecordingApp (stopRecordingApp (startRecordingApp initialAppAudio micStreamOneTrack))).mediaRecorder = none
  ∧ (stopRecordingApp (stopRecordingApp (startRecordingApp initialAppAudio micStreamOneTrack))).sentimentInterval = none := by
  decide

/-- Context lemma: the AudioStreamer's stopRecording, by contrast, does
implement the release discipline: it clears the stream, processor and
context, every track of the stream it releases is stopped, and a second
consecutive call releases nothing further. -/
theorem streamerStopRecording_releases (st : StreamerState) :
    (streamerStopRecording st).1.inputStream = none
  ∧ (streamerStopRecording st).1.processorConnected = false
  ∧ (streamerStopRecording st).1.audioContextOpen = false
  ∧ (∀ s ∈ (streamerStopRecording st).2, ∀ tr ∈ s.tracks, tr.stopped = true)
  ∧ (streamerStopRecording (streamerStopRecording st).1).2 = [] := by
  cases hst : st.inputStream with
  | none => simp [streamerStopRecording, hst]
  | some s =>
    refine ⟨by simp [streamerStopRecording, hst], by simp [streamerStopRecording, hst],
      by simp [streamerStopRecording, hst], ?_, by simp [streamerStopRecording, hst]⟩
    intro s' hs' tr htr
    simp only [streamerStopRecording, hst, List.mem_singleton] at hs'
    subst hs'
    simp only [stopTracks, List.mem_map] at htr
    obtain ⟨t0, -, ht⟩ := htr
    rw [← ht]

/-- C9: a poll without a detection forces any published hand state to
detected false with label IDLE, clears the cached pointer sample, and the
velocity computed on the next detection is 0. -/
theorem C9_gap_resets (M : MathOracle) (st : DetectState) (now : ℚ) (g : GestureHandData) :
    ((pollStep M st none now).handData = some g →
        g.detected = false ∧ g.gesture = Gesture.IDLE)
  ∧ (pollStep M st none now).lastPointer = none
  ∧ (∀ px py now2 : ℚ, velocitySqOf (pollStep M st none now) px py now2 = 0) := by
  refine ⟨?_, rfl, fun px py now2 => rfl⟩
  intro hg
  simp only [pollStep, Option.map_eq_some'] at hg
  obtain ⟨h0, -, hg'⟩ := hg
  subst hg'
  exact ⟨rfl, rfl⟩

/-- C10: when detection is lost, the published hand state changes exactly
the detected flag and the gesture label; position, palm center, pointer,
rotation and pinch distance are the previous frame's values, and a state
that was never published stays absent. -/
theorem C10_gap_frame_effect (M : MathOracle) (st : DetectState) (now : ℚ)
    (g : GestureHandData) :
    (st.handData = some g →
        (pollStep M st none now).handData
          = some { g with detected := false, gesture := Gesture.IDLE })
  ∧ (st.handData = none → (pollStep M st none now).handData = none) := by
  constructor
  · intro hg; simp [pollStep, hg]
  · intro hg; simp [pollStep, hg]

/-- Helper: a spawn batch carries exactly the characters it was built
from, in order. -/
theorem mkGlyphBatch_map_char (M : MathOracle) (ir : Bool) (tb n : ℕ) (now : ℚ) :
    ∀ (i : ℕ) (cs : List Char),
      (mkGlyphBatch M ir tb n now i cs).map TextParticle.char = cs := by
  intro i cs
  induction cs generalizing i with
  | nil => rfl
  | cons c rest ih => simp [mkGlyphBatch, mkGlyph, ih]

/-- C4: when the incoming transcript extends the previously processed one
and the scene version is unchanged, the spawn effect spawns glyphs exactly
for the appended suffix, in order. -/
theorem C4_append_spawns_suffix (M : MathOracle) (st : SpawnState) (t : List Char)
    (v : ℕ) (now : ℚ) (hv : v = st.lastSceneVersion) (hp : st.lastTranscript <+: t) :
    (spawnStep M st t v now).2.map TextParticle.char
      = t.drop st.lastTranscript.length := by
  subst hv
  have hreset : (st.lastSceneVersion != st.lastSceneVersion) = false := by simp
  by_cases ht : t.isEmpty
  · have ht' : t = [] := List.isEmpty_iff.mp ht
    subst ht'
    have hpre : st.lastTranscript = [] := List.prefix_nil.mp hp
    simp [spawnStep, hreset, hpre]
  · have hpf : st.lastTranscript.isPrefixOf t = true :=
      List.isPrefixOf_iff_prefix.mpr hp
    rw [spawnStep]
    rw [hreset]
    simp only [Bool.false_and, Bool.not_false, Bool.false_eq_true, if_false, ht,
      Bool.and_self, hpf, Bool.not_true, Bool.and_true, Bool.true_and, if_true]
    by_cases hnp : (t.drop st.lastTranscript.length).isEmpty
    · have h0 : t.drop st.lastTranscript.length = [] := List.isEmpty_iff.mp hnp
      simp [hnp, h0]
    · simp [hnp, mkGlyphBatch_map_char]

/-- C4 witness: transcript HELLO followed by HELLO WORLD at an unchanged
scene version spawns glyphs exactly for the 6 characters of the appended
suffix. -/
theorem C4_append_spawns_suffix_witness :
    (spawnStep zeroOracle spawnStateHello ("HELLO WORLD".data) 7 0).2.map TextParticle.char
      = ("HELLO WORLD".data).drop (spawnStateHello.lastTranscript.length)
  ∧ (spawnStep zeroOracle spawnStateHello ("HELLO WORLD".data) 7 0).2.length = 6 := by
  have h := C4_append_spawns_suffix zeroOracle spawnStateHello ("HELLO WORLD".data) 7 0
    rfl (by decide)
  refine ⟨h, ?_⟩
  have hlen := congrArg List.length h
  rw [List.length_map] at hlen
  rw [hlen]
  decide

/-- Helper: the sampling loop never collects more than the target count
when it starts within it. -/
theorem sampleLoop_length_le (w h : ℕ) (aspect : ℚ) (data : ℕ → ℕ) (tc : ℕ)
    (rands : ℕ → ℚ) :
    ∀ (fuel k : ℕ) (acc : List Particle), acc.length ≤ tc →
      (sampleLoop w h aspect data tc rands fuel k acc).1.length ≤ tc := by
  intro fuel
  induction fuel with
  | zero => intro k acc hacc; exact hacc
  | succ n ih =>
    intro k acc hacc
    rw [sampleLoop]
    by_cases hstop : tc ≤ acc.length
    · rw [if_pos hstop]; exact hacc
    · rw [if_neg hstop]
      rcases hA : sampleAttempt w h aspect data rands k with ⟨o, k2⟩
      cases o with
      | none => exact ih k2 acc hacc
      | some p =>
        have hlt : acc.length < tc := Nat.lt_of_not_le hstop
        have : (acc ++ [p]).length ≤ tc := by
          rw [List.length_append]
          exact hlt
        exact ih k2 (acc ++ [p]) this

/-- Helper: when the loop ends short of the target, it consumed its whole
attempt budget. -/
theorem sampleLoop_attempts_eq (w h : ℕ) (aspect : ℚ) (data : ℕ → ℕ) (tc : ℕ)
    (rands : ℕ → ℚ) :
    ∀ (fuel k : ℕ) (acc : List Particle),
      (sampleLoop w h aspect data tc rands fuel k acc).1.length < tc →
      (sampleLoop w h aspect data tc rands fuel k acc).2 = fuel := by
  intro fuel
  induction fuel with
  | zero => intro k acc _; rfl
  | succ n ih =>
    intro k acc hlt
    rw [sampleLoop] at hlt ⊢
    by_cases hstop : tc ≤ acc.length
    · rw [if_pos hstop] at hlt
      exact absurd hlt (Nat.not_lt.mpr hstop)
    · rw [if_neg hstop] at hlt ⊢
      rcases hA : sampleAttempt w h aspect data rands k with ⟨o, k2⟩
      rw [hA] at hlt
      cases o with
      | none =>
        dsimp only at hlt ⊢
        rw [ih k2 acc hlt]
      | some p =>
        dsimp only at hlt ⊢
        rw [ih k2 (acc ++ [p]) hlt]

/-- C2 (amended to target counts of at least 1): the sampler returns at
most N particles, at least one particle, returns fewer than N only when the
200 N attempt budget was fully consumed, and returns exactly the single
white origin fallback particle when the loop accepted nothing. -/
theorem C2_sampler_count (w h : ℕ) (aspect : ℚ) (data : ℕ → ℕ) (N : ℕ)
    (rands : ℕ → ℚ) (hN : 1 ≤ N) :
    (processImageToParticles w h aspect data N rands).length ≤ N
  ∧ 1 ≤ (processImageToParticles w h aspect data N rands).length
  ∧ ((processImageToParticles w h aspect data N rands).length < N →
      (sampleLoop w h aspect data N rands (N * 200) 0 []).2 = N * 200)
  ∧ ((sampleLoop w h aspect data N rands (N * 200) 0 []).1 = [] →
      processImageToParticles w h aspect data N rands = [fallbackParticle]) := by
  have hle := sampleLoop_length_le w h aspect data N rands (N * 200) 0 []
    (by simp)
  unfold processImageToParticles
  by_cases hemp : (sampleLoop w h aspect data N rands (N * 200) 0 []).1.isEmpty
  · have h0 : (sampleLoop w h aspect data N rands (N * 200) 0 []).1 = [] :=
      List.isEmpty_iff.mp hemp
    rw [if_pos hemp]
    refine ⟨by simpa using hN, by simp, ?_, fun _ => rfl⟩
    intro _
    apply sampleLoop_attempts_eq
    rw [h0]
    simpa using Nat.lt_of_lt_of_le Nat.zero_lt_one hN
  · rw [if_neg hemp]
    have hne : (sampleLoop w h aspect data N rands (N * 200) 0 []).1 ≠ [] :=
      fun h0 => hemp (by simp [h0])
    refine ⟨hle, ?_, ?_, fun h0 => absurd h0 hne⟩
    · exact Nat.succ_le_of_lt (List.length_pos.mpr hne)
    · intro hlt
      exact sampleLoop_attempts_eq w h aspect data N rands (N * 200) 0 [] hlt

/-- C2 witness: a 1-by-1 opaque image with target count 1 yields at most
one particle. -/
theorem C2_sampler_count_witness :
    (processImageToParticles 1 1 1 fullBytes 1 zeroRands).length ≤ 1 :=
  (C2_sampler_count 1 1 1 fullBytes 1 zeroRands (by decide)).1

/-- C2 counterexample: at target count 0 the claim's at-most-N bound fails,
because the fallback still emits one particle. -/
theorem C2_target_zero_counterexample :
    ¬ ((processImageToParticles 1 1 1 zeroBytes 0 zeroRands).length ≤ 0) := by
  decide

/-- Helper: match scores are never negative. -/
theorem scoreOf_nonneg (kws : List (List Char)) (m : MemoryPackage) :
    0 ≤ scoreOf kws m := by
  unfold scoreOf
  by_cases hpos : 0 < hitsOf kws m
  · rw [if_pos hpos]
    refine le_min (div_nonneg (Nat.cast_nonneg _) ?_) zero_le_one
    exact le_trans zero_le_one (le_max_left _ _)
  · rw [if_neg hpos]

/-- C5 (amended: the match text joins transcript and sentiment label with a
single space, as the source does): for a non-empty keyword set the match
score is exactly min(1, hits / max(1, 0.5 keywordCount)) over the
space-joined content, lies in the unit interval, and vanishes with no
hit. -/
theorem C5_match_score (kws : List (List Char)) (m : MemoryPackage) (_hk : kws ≠ []) :
    scoreOf kws m
      = min 1 ((hitsOf kws m : ℚ) / max 1 ((kws.length : ℚ) * (1/2)))
  ∧ 0 ≤ scoreOf kws m ∧ scoreOf kws m ≤ 1
  ∧ (hitsOf kws m = 0 → scoreOf kws m = 0) := by
  have hnn := scoreOf_nonneg kws m
  unfold scoreOf at hnn ⊢
  by_cases hpos : 0 < hitsOf kws m
  · rw [if_pos hpos] at hnn ⊢
    refine ⟨min_comm _ _, hnn, min_le_right _ _, ?_⟩
    intro h0
    exact absurd hpos (by simp [h0])
  · rw [if_neg hpos] at hnn ⊢
    have h0 : hitsOf kws m = 0 := Nat.eq_zero_of_not_pos hpos
    refine ⟨?_, le_refl 0, zero_le_one, fun _ => rfl⟩
    rw [h0, Nat.cast_zero, zero_div]
    exact (min_eq_right zero_le_one).symm

/-- C5 witness: a single-keyword query against a concrete memory satisfies
the amended score formula. -/
theorem C5_match_score_witness :
    scoreOf (("summer".data) :: []) memSummer
      = min 1 ((hitsOf (("summer".data) :: []) memSummer : ℚ)
          / max 1 (((("summer".data) :: []).length : ℚ) * (1/2))) :=
  (C5_match_score (("summer".data) :: []) memSummer (by decide)).1

/-- C5 counterexample: the claim counts hits in the transcript concatenated
directly with the sentiment label; the source joins them with a space.  For
the memory with transcript summer and sentiment positive, the keyword rpos
is a substring of summerpositive but not of summer positive, so the
program's score is 0 while the claim's formula gives 1. -/
theorem C5_concat_counterexample :
    ¬ (scoreOf (("rpos".data) :: []) memSummer
        = min 1 ((hitsConcatClaim (("rpos".data) :: []) memSummer : ℚ)
            / max 1 (((("rpos".data) :: []).length : ℚ) * (1/2)))) := by
  have h1 : scoreOf (("rpos".data) :: []) memSummer = 0 := by decide
  have h2 : hitsConcatClaim (("rpos".data) :: []) memSummer = 1 := by decide
  intro hEq
  rw [h1, h2] at hEq
  have hmax : max (1 : ℚ) (((((("rpos".data)) :: []).length : ℚ)) * (1/2)) = 1 := by
    norm_num
  rw [hmax] at hEq
  norm_num at hEq

/-- Helper: the search comparator is transitive. -/
theorem searchCmp_trans (a b c : MemoryPackage) (hab : searchCmp a b = true)
    (hbc : searchCmp b c = true) : searchCmp a c = true := by
  unfold searchCmp at *
  by_cases hac : 0 < c.matchScore ∨ 0 < a.matchScore
  · rw [if_pos hac]
    apply decide_eq_true
    rcases hac with hc | ha
    · have hBc : 0 < c.matchScore ∨ 0 < b.matchScore := Or.inl hc
      rw [if_pos hBc] at hbc
      have hcb : c.matchScore ≤ b.matchScore := of_decide_eq_true hbc
      have hb : 0 < b.matchScore := lt_of_lt_of_le hc hcb
      rw [if_pos (Or.inl hb)] at hab
      exact le_trans hcb (of_decide_eq_true hab)
    · by_cases hc : 0 < c.matchScore
      · have hBc : 0 < c.matchScore ∨ 0 < b.matchScore := Or.inl hc
        rw [if_pos hBc] at hbc
        have hcb : c.matchScore ≤ b.matchScore := of_decide_eq_true hbc
        have hb : 0 < b.matchScore := lt_of_lt_of_le hc hcb
        rw [if_pos (Or.inl hb)] at hab
        exact le_trans hcb (of_decide_eq_true hab)
      · exact le_trans (le_of_not_lt hc) ha.le
  · rw [if_neg hac]
    push_neg at hac
    apply decide_eq_true
    by_cases hb : 0 < b.matchScore
    · rw [if_pos (Or.inl hb)] at hab
      have hba := of_decide_eq_true hab
      exact absurd (lt_of_lt_of_le hb hba) (not_lt.mpr hac.2)
    · have hAb : ¬ (0 < b.matchScore ∨ 0 < a.matchScore) := by
        push_neg
        exact ⟨le_of_not_lt hb, hac.2⟩
      rw [if_neg hAb] at hab
      have hBc : ¬ (0 < c.matchScore ∨ 0 < b.matchScore) := by
        push_neg
        exact ⟨hac.1, le_of_not_lt hb⟩
      rw [if_neg hBc] at hbc
      exact le_trans (of_decide_eq_true hbc) (of_decide_eq_true hab)

/-- Helper: the search comparator is total. -/
theorem searchCmp_total (a b : MemoryPackage) :
    (searchCmp a b || searchCmp b a) = true := by
  unfold searchCmp
  by_cases hcond : 0 < b.matchScore ∨ 0 < a.matchScore
  · rw [if_pos hcond, if_pos hcond.symm]
    rcases le_total b.matchScore a.matchScore with hle | hle <;> simp [hle]
  · have hcond' : ¬ (0 < a.matchScore ∨ 0 < b.matchScore) := fun hor => hcond hor.symm
    rw [if_neg hcond, if_neg hcond']
    rcases le_total b.timestamp a.timestamp with hle | hle <;> simp [hle]

/-- Helper: the recency comparator is transitive. -/
theorem byRecency_trans (a b c : MemoryPackage) (hab : byRecency a b = true)
    (hbc : byRecency b c = true) : byRecency a c = true := by
  unfold byRecency at *
  exact decide_eq_true (le_trans (of_decide_eq_true hbc) (of_decide_eq_true hab))

/-- Helper: the recency comparator is total. -/
theorem byRecency_total (a b : MemoryPackage) :
    (byRecency a b || byRecency b a) = true := by
  unfold byRecency
  rcases le_total b.timestamp a.timestamp with hle | hle <;> simp [hle]

/-- Helper: sorting with the recency comparator yields a list ordered by
descending timestamp. -/
theorem sorted_byRecency (l : List MemoryPackage) :
    (l.mergeSort byRecency).Sorted recencyGE := by
  have hp := List.sorted_mergeSort byRecency_trans byRecency_total l
  refine List.Pairwise.imp ?_ hp
  intro a b hab
  unfold recencyGE
  unfold byRecency at hab
  exact of_decide_eq_true hab

/-- Helper: with nonnegative scores, sorting with the search comparator
yields a list ordered by descending match score. -/
theorem sorted_searchCmp_score (l : List MemoryPackage)
    (h0 : ∀ m ∈ l, 0 ≤ m.matchScore) :
    (l.mergeSort searchCmp).Sorted scoreGE := by
  have hp := List.sorted_mergeSort searchCmp_trans searchCmp_total l
  have hmem : ∀ m ∈ l.mergeSort searchCmp, 0 ≤ m.matchScore := fun m hm =>
    h0 m ((List.mergeSort_perm l searchCmp).mem_iff.mp hm)
  refine List.Pairwise.imp_of_mem ?_ hp
  intro a b ha hb hab
  unfold searchCmp at hab
  unfold scoreGE
  by_cases hcond : 0 < b.matchScore ∨ 0 < a.matchScore
  · rw [if_pos hcond] at hab
    exact of_decide_eq_true hab
  · push_neg at hcond
    rw [le_antisymm hcond.1 (hmem b hb), le_antisymm hcond.2 (hmem a ha)]

/-- Helper: with all scores zero, sorting with the search comparator yields
a list ordered by descending timestamp. -/
theorem sorted_searchCmp_recency (l : List MemoryPackage)
    (h0 : ∀ m ∈ l, m.matchScore = 0) :
    (l.mergeSort searchCmp).Sorted recencyGE := by
  have hp := List.sorted_mergeSort searchCmp_trans searchCmp_total l
  have hmem : ∀ m ∈ l.mergeSort searchCmp, m.matchScore = 0 := fun m hm =>
    h0 m ((List.mergeSort_perm l searchCmp).mem_iff.mp hm)
  refine List.Pairwise.imp_of_mem ?_ hp
  intro a b ha hb hab
  unfold searchCmp at hab
  unfold recencyGE
  have hcond : ¬ (0 < b.matchScore ∨ 0 < a.matchScore) := by
    rw [hmem a ha, hmem b hb]
    simp
  rw [if_neg hcond] at hab
  exact of_decide_eq_true hab

/-- C6: with an active non-empty keyword set the pipeline returns a
permutation of the scored memories sorted by descending match score, and
when no memory scores positive that order degrades to descending recency;
in LIVE mode, with an empty query, or with an all-stop-word (empty) keyword
set, every score resets to 0 and the list is a recency-sorted permutation
of the reset memories. -/
theorem C6_sort_policy (viewLive : Bool) (q : List Char) (kws : List (List Char))
    (saved : List MemoryPackage) :
    (viewLive = false → q ≠ [] → kws ≠ [] →
        (processedMemories viewLive q kws saved).Perm
          (saved.map fun m => { m with matchScore := scoreOf kws m })
      ∧ ((∃ m ∈ saved, 0 < scoreOf kws m) →
          (processedMemories viewLive q kws saved).Sorted scoreGE)
      ∧ ((∀ m ∈ saved, scoreOf kws m = 0) →
          (processedMemories viewLive q kws saved).Sorted recencyGE))
  ∧ ((viewLive = true ∨ q = [] ∨ kws = []) →
        (∀ m ∈ processedMemories viewLive q kws saved, m.matchScore = 0)
      ∧ (processedMemories viewLive q kws saved).Sorted recencyGE
      ∧ (processedMemories viewLive q kws saved).Perm (resetScores saved)) := by
  constructor
  · intro hlive hq hk
    have hres : processedMemories viewLive q kws saved
        = (saved.map fun m => { m with matchScore := scoreOf kws m }).mergeSort searchCmp := by
      unfold processedMemories
      rw [if_neg, if_neg]
      · intro hcon
        exact hk (List.isEmpty_iff.mp hcon)
      · rintro (hcon | hcon)
        · rw [hlive] at hcon
          exact Bool.false_ne_true hcon
        · exact hq (List.isEmpty_iff.mp hcon)
    rw [hres]
    refine ⟨List.mergeSort_perm _ _, fun _ => ?_, fun hz => ?_⟩
    · apply sorted_searchCmp_score
      intro m hm
      obtain ⟨m0, -, hm0⟩ := List.mem_map.mp hm
      rw [← hm0]
      exact scoreOf_nonneg kws m0
    · apply sorted_searchCmp_recency
      intro m hm
      obtain ⟨m0, hm0mem, hm0⟩ := List.mem_map.mp hm
      rw [← hm0]
      exact hz m0 hm0mem
  · intro hcase
    have hres : processedMemories viewLive q kws saved
        = (resetScores saved).mergeSort byRecency := by
      unfold processedMemories
      rcases hcase with hv | hq0 | hk0
      · rw [if_pos (Or.inl hv)]
      · rw [if_pos (Or.inr (by simp [hq0]))]
      · by_cases hfirst : viewLive = true ∨ q.isEmpty = true
        · rw [if_pos hfirst]
        · rw [if_neg hfirst, if_pos (by simp [hk0])]
    rw [hres]
    refine ⟨?_, sorted_byRecency _, List.mergeSort_perm _ _⟩
    intro m hm
    have hm' : m ∈ resetScores saved :=
      (List.mergeSort_perm (resetScores saved) byRecency).mem_iff.mp hm
    obtain ⟨m0, -, hm0⟩ := List.mem_map.mp hm'
    rw [← hm0]

end ChronoSpec
